import Mathlib

/-!
Shallow embedding of the mpv-menu-plugin repository (src/plugin.c) and, where
the repository's menu engine (menu.c, declared in menu.h but absent from src/)
is concerned, a model built from the specification's words.

Characters of the configuration text are Lean `Char`s; C strings are
`List Char`; wide-character paths are lists of path components; machine
handles and window procedures are abstract `Nat` identifiers.
-/

namespace MpvMenu

/-- The NUL character, used by `read_file` as the string terminator. -/
def NULC : Char := Char.ofNat 0

/-- The newline character that ends a configuration line. -/
def NLC : Char := Char.ofNat 10

/-- Whitespace inside a configuration line (space, tab, carriage return). -/
def isWs (c : Char) : Bool := c == ' ' || c == Char.ofNat 9 || c == Char.ofNat 13

/-- Drop leading whitespace. -/
def trimL (s : List Char) : List Char := s.dropWhile isWs

/-- Drop trailing whitespace. -/
def trimR (s : List Char) : List Char := (trimL s.reverse).reverse

/-- Drop surrounding whitespace. -/
def trim (s : List Char) : List Char := trimR (trimL s)

/-- Cut the text at the first NUL terminator, as C string processing does. -/
def cutNul (s : List Char) : List Char := s.takeWhile (fun c => !(c == NULC))

/-- Split a character sequence into lines at newline characters. -/
def splitLines : List Char → List (List Char)
  | [] => [[]]
  | c :: cs =>
      let r := splitLines cs
      if c == NLC then [] :: r
      else (c :: r.headD []) :: r.tail

/-- Split a line at the first whitespace run into key token and remainder
(left-trimmed); `none` when the line has no whitespace at all. -/
def splitWs : List Char → Option (List Char × List Char)
  | [] => none
  | c :: cs =>
      if isWs c then some ([], trimL cs)
      else (splitWs cs).map (fun p => (c :: p.1, p.2))

/-- If `m` is an initial run of `s`, return the remainder of `s`. -/
def stripHead : List Char → List Char → Option (List Char)
  | [], s => some s
  | _ :: _, [] => none
  | a :: ms, b :: ss => if a == b then stripHead ms ss else none

/-- Modelled from the spec: the concrete inline menu marker, `#menu:`
(menu.c's exact marker text is not in src/; the spec names this one). -/
def MARKER : List Char := ['#', 'm', 'e', 'n', 'u', ':']

/-- Split a line at the first occurrence of the menu marker into the text
before it and the text after it; `none` when the marker does not occur. -/
def splitMarker : List Char → Option (List Char × List Char)
  | [] => none
  | c :: cs =>
      match stripHead MARKER (c :: cs) with
      | some rest => some ([], rest)
      | none => (splitMarker cs).map (fun p => (c :: p.1, p.2))

/-- Split a submenu path on the `/` separator into trimmed segments. -/
def splitSlash : List Char → List (List Char)
  | [] => [[]]
  | c :: cs =>
      let r := splitSlash cs
      if c == '/' then [] :: r
      else (c :: r.headD []) :: r.tail

/-- Path segments of an annotation body: split on `/`, each segment trimmed. -/
def pathSegs (s : List Char) : List (List Char) := (splitSlash s).map trim

/-- Modelled from the spec: the designated separator label, `-`. -/
def SEPLABEL : List Char := ['-']

/-- Modelled from the spec: one structured record produced by the parser, a
`BindingLine` — either a key binding with command text and an optional menu
path, or a standalone separator directive at a submenu path. -/
inductive BindingLine where
  | binding (key : List Char) (cmd : List Char) (ann : Option (List (List Char)))
  | sepLine (path : List (List Char))
deriving DecidableEq

/-- Parser state: the pending path set by a preceding comment-line marker,
the records emitted so far, and warnings for malformed lines. -/
structure ParseSt where
  pending : Option (List (List Char))
  out : List BindingLine
  warns : List (List Char)
deriving DecidableEq

/-- Modelled from the spec: process one configuration line. Blank lines and
unrecognized comments are skipped; a comment line carrying the menu marker
with the separator label emits a separator record, otherwise it stores a
pending path for the next binding; a binding line splits on the first
whitespace run (no whitespace at all is a warning, the line is skipped), and
its menu path is the inline marker's body when present, else the pending
path of the immediately preceding comment lines. -/
def parseLine (st : ParseSt) (line : List Char) : ParseSt :=
  let t := trim line
  if t = [] then { st with pending := none }
  else if t.headD ' ' == '#' then
    match splitMarker t with
    | some (_, rest) =>
        let a := trim rest
        if a = [] then { st with pending := none }
        else
          let segs := pathSegs a
          if segs.getLastD [] = SEPLABEL then
            { st with pending := none, out := st.out ++ [.sepLine segs.dropLast] }
          else { st with pending := some segs }
    | none => { st with pending := none }
  else
    match splitWs t with
    | none => { st with pending := none, warns := st.warns ++ [line] }
    | some (key, rest) =>
        match splitMarker rest with
        | some (cmdPart, annPart) =>
            let a := trim annPart
            let ann := if a = [] then none else some (pathSegs a)
            { st with pending := none, out := st.out ++ [.binding key (trimR cmdPart) ann] }
        | none =>
            { st with pending := none, out := st.out ++ [.binding key (trimR rest) st.pending] }

/-- Modelled from the spec: `parse` — fold the line processor over the lines
of the (NUL-terminated) configuration text, returning the ordered sequence of
binding records and the list of malformed-line warnings. -/
def parse (text : List Char) : List BindingLine × List (List Char) :=
  let st := (splitLines (cutNul text)).foldl parseLine ⟨none, [], []⟩
  (st.out, st.warns)

/-- Modelled from the spec: one node of the built menu tree — a separator, an
actionable entry with label, command and numeric identifier, or a submenu
with an ordered list of children. -/
inductive MenuNode where
  | sep
  | action (label : List Char) (cmd : List Char) (id : Nat)
  | submenu (label : List Char) (children : List MenuNode)

/-- Modelled from the spec: the fixed identifier base, above any value the
host reserves for its own menu commands. -/
def MENU_ID_BASE : Nat := 10000

/-- Walk a submenu path from the given sibling list, reusing an existing
submenu with the segment's exact name at each level or creating and
appending one, and append the new node at the leaf level. -/
def insertAt (ns : List MenuNode) (path : List (List Char)) (node : MenuNode) :
    List MenuNode :=
  match path, ns with
  | [], _ => ns ++ [node]
  | seg :: rest, [] => [.submenu seg (insertAt [] rest node)]
  | seg :: rest, .submenu l cs :: tl =>
      if l = seg then .submenu l (insertAt cs rest node) :: tl
      else .submenu l cs :: insertAt tl (seg :: rest) node
  | seg :: rest, n :: tl => n :: insertAt tl (seg :: rest) node
termination_by (path.length, ns.length)

mutual

/-- Identifiers of the `action` nodes of one node, in traversal order. -/
def actionIds : MenuNode → List Nat
  | .sep => []
  | .action _ _ i => [i]
  | .submenu _ cs => actionIdsL cs

/-- Identifiers of the `action` nodes of a node list, in traversal order. -/
def actionIdsL : List MenuNode → List Nat
  | [] => []
  | n :: ns => actionIds n ++ actionIdsL ns

end

/-- Builder state: the tree under construction, the command table built in
lock-step, and the monotone identifier counter. -/
structure BuildSt where
  tree : List MenuNode
  table : List (Nat × List Char)
  ctr : Nat

/-- Modelled from the spec: process one binding record. Annotated bindings
append an `action` (label is the path's last segment, or is derived from the
command text when the path is empty) at their submenu path and insert the
table entry at the same moment; separator records append a `sep` node;
unannotated bindings are ignored for menu purposes. -/
def buildStep (st : BuildSt) (b : BindingLine) : BuildSt :=
  match b with
  | .binding _ _ none => st
  | .binding _ cmd (some segs) =>
      { tree := insertAt st.tree segs.dropLast (.action (segs.getLastD cmd) cmd st.ctr)
        table := st.table ++ [(st.ctr, cmd)]
        ctr := st.ctr + 1 }
  | .sepLine path => { st with tree := insertAt st.tree path .sep }

/-- Fold the builder over the binding records from the empty state. -/
def buildFold (bs : List BindingLine) : BuildSt :=
  bs.foldl buildStep ⟨[], [], MENU_ID_BASE⟩

/-- Modelled from the spec: the build error, raised exactly when the built
tree holds zero actionable entries. -/
inductive BuildError where
  | emptyMenu
deriving DecidableEq

/-- Modelled from the spec: `build` — fold the builder over the binding
records and publish the tree and table together, failing with `BuildError`
when zero `action` nodes exist. -/
def build (bs : List BindingLine) :
    Except BuildError (List MenuNode × List (Nat × List Char)) :=
  if actionIdsL (buildFold bs).tree = [] then .error .emptyMenu
  else .ok ((buildFold bs).tree, (buildFold bs).table)

/-- Whether a binding record is an annotated binding (one that carries a
menu path and therefore becomes an actionable menu entry). -/
def isAnnBinding : BindingLine → Bool
  | .binding _ _ (some _) => true
  | _ => false

/-- Modelled from the spec: the command table lookup used by dispatch
resolution (menu.c's `handle_menu` body is not in src/). -/
def lookupCmd : List (Nat × List Char) → Nat → Option (List Char)
  | [], _ => none
  | (i, c) :: rest, id => if i = id then some c else lookupCmd rest id

/-- Modelled from the spec: `handle_menu` — resolve a selected identifier
through the command table; the found command string is forwarded verbatim to
the host's command execution entry point (the returned list of commands
sent), and an absent identifier forwards nothing. -/
def handle_menu (table : List (Nat × List Char)) (id : Nat) : List (List Char) :=
  match lookupCmd table id with
  | some cmd => [cmd]
  | none => []

/-- A filesystem: maps a path (list of components) to file contents, or
`none` when the file cannot be opened. -/
def FS : Type := List (List Char) → Option (List Char)

/-- plugin.c `read_file`: `none` when `CreateFileW` fails to open the file;
otherwise a buffer of the file's bytes with a NUL terminator appended at
index file-size. -/
def read_file (fs : FS) (path : List (List Char)) : Option (List Char) :=
  match fs path with
  | none => none
  | some data => some (data ++ [NULC])

/-- Windows message number `WM_CONTEXTMENU`. -/
def WM_CONTEXTMENU : Nat := 123

/-- Windows message number `WM_COMMAND`. -/
def WM_COMMAND : Nat := 273

/-- The low 16 bits of a message word, as `LOWORD` extracts them. -/
def LOWORD (w : Nat) : Nat := w % 65536

/-- Observable side effects of one `WndProc` invocation: the points at which
`show_menu` was asked to pop up, and the command strings `handle_menu`
forwarded to the host. -/
structure WndEffects where
  shown : List (Int × Int)
  sent : List (List Char)
deriving DecidableEq

/-- plugin.c `WndProc`: on `WM_CONTEXTMENU` call `show_menu` at the point in
`lParam`, on `WM_COMMAND` call `handle_menu` with the low word of `wParam`,
and in every case fall through to `CallWindowProcW` on the saved original
procedure `orig`, returning its result. -/
def WndProc (table : List (Nat × List Char)) (orig : Nat → Nat → Nat → Int × Int → Int)
    (hWnd uMsg wParam : Nat) (lParam : Int × Int) : WndEffects × Int :=
  let eff : WndEffects :=
    if uMsg = WM_CONTEXTMENU then ⟨[lParam], []⟩
    else if uMsg = WM_COMMAND then ⟨[], handle_menu table (LOWORD wParam)⟩
    else ⟨[], []⟩
  (eff, orig hWnd uMsg wParam lParam)

/-- plugin.c `struct plugin_ctx`: the configuration file path and the fields
`memset` zeroes at creation — the mpv handle, the window id, the menu handle
and the saved original window procedure. -/
structure PluginCtx where
  conf_path : List (List Char)
  mpv : Option Nat
  hwnd : Int
  hmenu : Option Nat
  wnd_proc : Option Nat
deriving DecidableEq

/-- The video window, reduced to its current window procedure (an abstract
identifier, as procedures are compared only by pointer in plugin.c). -/
structure Window where
  proc : Nat
deriving DecidableEq

/-- The abstract identifier of the plugin's own `WndProc`, installed by
`SetWindowLongPtrW` in `plugin_init`. -/
def WNDPROC_PLUGIN : Nat := 1

/-- One observable step of `plugin_init`, in execution order. -/
inductive InitEff where
  | readConf (path : List (List Char))
  | msgBox
  | loadMenu (conf : List Char)
  | subclass
  | freeConf
deriving DecidableEq

/-- Result of one `plugin_init` call: the context and window afterwards and
the ordered trace of observable steps. -/
structure InitRes where
  ctx : PluginCtx
  win : Window
  trace : List InitEff
deriving DecidableEq

/-- plugin.c `plugin_init`: read the configuration file at `ctx->conf_path`;
on failure show a blocking message box and return, touching nothing else; on
success store the mpv handle and window id, build the menu with `load_menu`,
subclass the window (saving its previous procedure), and only then free the
configuration text. `lm` abstracts menu.c's `load_menu`. -/
def plugin_init (fs : FS) (lm : List Char → Option Nat) (c : PluginCtx) (w : Window)
    (handle : Nat) (wid : Int) : InitRes :=
  match read_file fs c.conf_path with
  | none => ⟨c, w, [.readConf c.conf_path, .msgBox]⟩
  | some conf =>
      ⟨{ c with mpv := some handle, hwnd := wid, hmenu := lm conf,
                wnd_proc := some w.proc },
       ⟨WNDPROC_PLUGIN⟩,
       [.readConf c.conf_path, .loadMenu conf, .subclass, .freeConf]⟩

/-- An mpv event as the plugin's loop observes it: shutdown, a property
change (name, whether the payload format is `MPV_FORMAT_INT64`, payload), or
anything else. -/
inductive MpvEvent where
  | shutdown
  | propChange (name : String) (isInt64 : Bool) (val : Int)
  | other
deriving DecidableEq

/-- The loop state threaded through `mpv_open_cplugin`: the plugin context,
the window, and the accumulated trace of `plugin_init` steps. -/
structure LoopSt where
  ctx : PluginCtx
  win : Window
  trace : List InitEff
deriving DecidableEq

/-- The event loop of plugin.c `mpv_open_cplugin`: wait for events until
`MPV_EVENT_SHUTDOWN`, calling `plugin_init` at every `window-id` property
change carrying an `int64` value greater than zero. Returns `some 0` when
shutdown is reached; `none` models a finite event prefix that never shuts
down (the real loop would still be blocked in `mpv_wait_event`). -/
def cplugin_loop (fs : FS) (lm : List Char → Option Nat) (handle : Nat) :
    List MpvEvent → LoopSt → LoopSt × Option Int
  | [], st => (st, none)
  | e :: rest, st =>
      match e with
      | .shutdown => (st, some 0)
      | .propChange name isInt64 v =>
          if isInt64 = true ∧ name = "window-id" ∧ 0 < v then
            let r := plugin_init fs lm st.ctx st.win handle v
            cplugin_loop fs lm handle rest ⟨r.ctx, r.win, st.trace ++ r.trace⟩
          else cplugin_loop fs lm handle rest st
      | .other => cplugin_loop fs lm handle rest st

/-- plugin.c `mpv_open_cplugin`: observe `window-id` and run the event loop
from the given state. -/
def mpv_open_cplugin (fs : FS) (lm : List Char → Option Nat) (handle : Nat)
    (events : List MpvEvent) (st : LoopSt) : LoopSt × Option Int :=
  cplugin_loop fs lm handle events st

/-- The fixed relative path `..\\..\\input.conf` that plugin.c combines with
the module's file path. -/
def REL_CONF : List (List Char) :=
  [['.', '.'], ['.', '.'], ['i', 'n', 'p', 'u', 't', '.', 'c', 'o', 'n', 'f']]

/-- `PathCombineW` on component lists: append, then canonicalize by letting a
`..` component remove the component before it. -/
def pathCombine (base rel : List (List Char)) : List (List Char) :=
  (base ++ rel).foldl
    (fun acc c => if c = ['.', '.'] then acc.dropLast else acc ++ [c]) []

/-- plugin.c `create_plugin_ctx`: combine the module's own file path with
`..\\..\\input.conf`, allocate the zeroed context, and store a copy of the
combined path in `ctx->conf_path`. -/
def create_plugin_ctx (modPath : List (List Char)) : PluginCtx :=
  { conf_path := pathCombine modPath REL_CONF
    mpv := none, hwnd := 0, hmenu := none, wnd_proc := none }

/-- Result of `plugin_destroy`: the window afterwards, the menu handle that
was destroyed (if one was installed), and whether the context was freed. -/
structure DestroyRes where
  win : Window
  destroyedMenu : Option Nat
  freedCtx : Bool
deriving DecidableEq

/-- plugin.c `plugin_destroy`: destroy the menu if one was installed,
restore the saved original window procedure if the window was subclassed,
and free the context. -/
def plugin_destroy (c : PluginCtx) (w : Window) : DestroyRes :=
  { win := if c.hwnd ≠ 0 ∧ c.wnd_proc.isSome then ⟨c.wnd_proc.getD w.proc⟩ else w
    destroyedMenu := c.hmenu
    freedCtx := true }

/-- The `fdwReason` argument of `DllMain`. -/
inductive DllReason where
  | processAttach
  | processDetach
  | threadOther
deriving DecidableEq

/-- Process-wide state around `DllMain`: the global `ctx` pointer, the video
window, the menu handles destroyed so far, and whether `ctx` was freed. -/
structure ProcSt where
  ctx : Option PluginCtx
  win : Window
  destroyedMenus : List Nat
  freedCtx : Bool
deriving DecidableEq

/-- plugin.c `DllMain`: on process attach create the plugin context from the
module path; on process detach run `plugin_destroy`; always return TRUE. -/
def DllMain (modPath : List (List Char)) (reason : DllReason) (s : ProcSt) :
    ProcSt × Bool :=
  match reason with
  | .processAttach => ({ s with ctx := some (create_plugin_ctx modPath) }, true)
  | .processDetach =>
      match s.ctx with
      | some c =>
          let d := plugin_destroy c s.win
          ({ ctx := none, win := d.win,
             destroyedMenus := s.destroyedMenus ++ d.destroyedMenu.toList,
             freedCtx := true }, true)
      | none => (s, true)
  | .threadOther => (s, true)

/-- Count the `loadMenu` steps (menu constructions) in a trace. -/
def countLoad (tr : List InitEff) : Nat :=
  tr.countP (fun e => match e with | .loadMenu _ => true | _ => false)

/-- Count the `readConf` (configuration read) steps in a trace. -/
def countRead (tr : List InitEff) : Nat :=
  tr.countP (fun e => match e with | .readConf _ => true | _ => false)

/-- Count the qualifying `window-id` property-change events the loop acts on
before the first shutdown. -/
def countQual : List MpvEvent → Nat
  | [] => 0
  | .shutdown :: _ => 0
  | .propChange name isInt64 v :: rest =>
      (if isInt64 = true ∧ name = "window-id" ∧ 0 < v then 1 else 0) + countQual rest
  | .other :: rest => countQual rest

/-- Whether an init step is a `loadMenu` (menu construction) step. -/
def isLoadStep : InitEff → Bool
  | .loadMenu _ => true
  | _ => false

/-- Whether an init step is the `freeConf` (release the raw text) step. -/
def isFreeStep : InitEff → Bool
  | .freeConf => true
  | _ => false

/-- The spec's worked example configuration text: two annotated bindings
under the `File` submenu followed by one unannotated binding. -/
def exConf : List Char :=
  ("a show-text \"A\"  #menu: File/Show A\nb quit  #menu: File/Quit\nc ignore-on-its-own\n").data

/-- The tree/table pair the example configuration builds to. -/
def exPair : List MenuNode × List (Nat × List Char) :=
  ((buildFold (parse exConf).1).tree, (buildFold (parse exConf).1).table)

/-- A one-byte filesystem used to instantiate the `read_file` theorem. -/
def fsOne : FS := fun _ => some ['a']

/-- A filesystem on which every read fails. -/
def fsNone : FS := fun _ => none

/-- A `load_menu` stand-in returning a fixed handle. -/
def lmFix : List Char → Option Nat := fun _ => some 2

/-- The context as created at DLL attach from an empty module path. -/
def cW : PluginCtx := create_plugin_ctx []

/-- A concrete window. -/
def wW : Window := ⟨5⟩

/-- A qualifying `window-id` property-change event. -/
def evQ : MpvEvent := .propChange "window-id" true 1

/-- A filesystem holding a one-byte configuration at every path. -/
def fsSome : FS := fun _ => some ['q']

theorem actionIdsL_append (as bs : List MenuNode) :
    actionIdsL (as ++ bs) = actionIdsL as ++ actionIdsL bs := by
  induction as with
  | nil => simp [actionIdsL]
  | cons n tl ih => simp [actionIdsL, ih]

theorem actionIdsL_insertAt (node : MenuNode) (path : List (List Char))
    (ns : List MenuNode) :
    (actionIdsL (insertAt ns path node)).Perm (actionIdsL ns ++ actionIds node) := by
  induction path generalizing ns with
  | nil =>
      simp only [insertAt, actionIdsL_append]
      simp [actionIdsL]
  | cons seg rest ih =>
      induction ns with
      | nil =>
          simp only [insertAt, actionIds, actionIdsL, List.append_nil, List.nil_append]
          exact (ih []).trans (by simp [actionIdsL])
      | cons n tl ihn =>
          cases n with
          | sep =>
              simp only [insertAt, actionIds, actionIdsL, List.nil_append]
              exact ihn
          | action l c i =>
              simp only [insertAt, actionIds, actionIdsL]
              rw [List.append_assoc]
              exact List.Perm.append_left _ ihn
          | submenu l cs =>
              by_cases hl : l = seg
              · simp only [insertAt, if_pos hl, actionIds, actionIdsL]
                have h1 :
                    (actionIdsL (insertAt cs rest node) ++ actionIdsL tl).Perm
                      ((actionIdsL cs ++ actionIds node) ++ actionIdsL tl) :=
                  (ih cs).append_right _
                have h2 :
                    ((actionIdsL cs ++ actionIds node) ++ actionIdsL tl).Perm
                      ((actionIdsL cs ++ actionIdsL tl) ++ actionIds node) := by
                  rw [List.append_assoc, List.append_assoc]
                  exact List.Perm.append_left _ List.perm_append_comm
                exact h1.trans h2
              · simp only [insertAt, if_neg hl, actionIds, actionIdsL]
                rw [List.append_assoc]
                exact List.Perm.append_left _ ihn

theorem buildStep_perm (st : BuildSt) (b : BindingLine)
    (h : (actionIdsL st.tree).Perm (st.table.map Prod.fst)) :
    (actionIdsL (buildStep st b).tree).Perm ((buildStep st b).table.map Prod.fst) := by
  cases b with
  | binding k cmd ann =>
      cases ann with
      | none => simpa [buildStep] using h
      | some segs =>
          simp only [buildStep, List.map_append, List.map_cons, List.map_nil]
          exact (actionIdsL_insertAt _ _ _).trans (by simpa [actionIds] using h.append_right [st.ctr])
  | sepLine p =>
      simp only [buildStep]
      exact (actionIdsL_insertAt _ _ _).trans (by simpa [actionIds] using h)

theorem buildFold_go_perm (bs : List BindingLine) :
    ∀ st : BuildSt, (actionIdsL st.tree).Perm (st.table.map Prod.fst) →
      (actionIdsL (bs.foldl buildStep st).tree).Perm
        ((bs.foldl buildStep st).table.map Prod.fst) := by
  induction bs with
  | nil => intro st h; simpa using h
  | cons b rest ih =>
      intro st h
      simp only [List.foldl_cons]
      exact ih _ (buildStep_perm st b h)

theorem buildFold_perm (bs : List BindingLine) :
    (actionIdsL (buildFold bs).tree).Perm ((buildFold bs).table.map Prod.fst) :=
  buildFold_go_perm bs ⟨[], [], MENU_ID_BASE⟩ (by simp [actionIdsL])

theorem buildFold_go_len (bs : List BindingLine) :
    ∀ st : BuildSt, (bs.foldl buildStep st).table.length
      = st.table.length + bs.countP isAnnBinding := by
  induction bs with
  | nil => intro st; simp
  | cons b rest ih =>
      intro st
      simp only [List.foldl_cons, List.countP_cons, ih]
      cases b with
      | binding k cmd ann =>
          cases ann with
          | none => simp [buildStep, isAnnBinding]
          | some segs => simp [buildStep, isAnnBinding]; omega
      | sepLine p => simp [buildStep, isAnnBinding]

theorem buildFold_len (bs : List BindingLine) :
    (buildFold bs).table.length = bs.countP isAnnBinding := by
  simpa using buildFold_go_len bs ⟨[], [], MENU_ID_BASE⟩

/-- C2: for every configuration text, `parse` followed by `build` yields a
command table whose identifier set equals the set of identifiers of the
`action` nodes reachable in the produced tree — no orphans in either
direction. -/
theorem parse_build_table_ids_match (txt : List Char)
    (res : List MenuNode × List (Nat × List Char))
    (h : build (parse txt).1 = .ok res) (i : Nat) :
    i ∈ actionIdsL res.1 ↔ i ∈ res.2.map Prod.fst := by
  have hp := buildFold_perm (parse txt).1
  unfold build at h
  split at h
  · exact absurd h (by simp)
  · injection h with h2
    rw [← h2]
    exact hp.mem_iff

/-- C2 witness: evaluated on the spec's worked example. -/
theorem parse_build_table_ids_match_witness :
    10000 ∈ actionIdsL exPair.1 ↔ 10000 ∈ exPair.2.map Prod.fst :=
  parse_build_table_ids_match exConf exPair (by with_unfolding_all rfl) 10000

/-- C3: `build` fails with `BuildError` exactly when processing all bindings
yields zero `action` nodes, equivalently when no annotated binding exists in
the input; with at least one annotated binding it succeeds (and only the
`.ok` branch carries a tree/table pair, so none is published on failure). -/
theorem build_fails_iff_no_actions (bs : List BindingLine) :
    (build bs = .error .emptyMenu ↔ actionIdsL (buildFold bs).tree = []) ∧
    (build bs = .error .emptyMenu ↔ bs.countP isAnnBinding = 0) ∧
    ((∃ b ∈ bs, isAnnBinding b) → (build bs).isOk = true) := by
  have hp := buildFold_perm bs
  have hlen : (actionIdsL (buildFold bs).tree).length = bs.countP isAnnBinding := by
    rw [hp.length_eq, List.length_map, buildFold_len]
  have hiff : actionIdsL (buildFold bs).tree = [] ↔ bs.countP isAnnBinding = 0 := by
    rw [← hlen, List.length_eq_zero]
  have h1 : build bs = .error .emptyMenu ↔ actionIdsL (buildFold bs).tree = [] := by
    unfold build
    split
    · next hc => simp [hc]
    · next hc => simp [hc]
  refine ⟨h1, h1.trans hiff, ?_⟩
  intro hex
  have hpos : 0 < bs.countP isAnnBinding := List.countP_pos_iff.mpr hex
  have hne : ¬ actionIdsL (buildFold bs).tree = [] := by
    rw [hiff]
    omega
  unfold build
  rw [if_neg hne]
  rfl

/-- C3 witness: the example input has an annotated binding, so `build`
succeeds on it; and on the empty binding sequence `build` fails exactly
because the annotated-binding count is zero. -/
theorem build_fails_iff_no_actions_witness :
    (build (parse exConf).1).isOk = true :=
  (build_fails_iff_no_actions (parse exConf).1).2.2
    ⟨BindingLine.binding ['a'] ("show-text \"A\"").data
        (some [['F', 'i', 'l', 'e'], ("Show A").data]), by decide, by decide⟩

/-- C4: a `WM_COMMAND` selection resolves the low word of `wParam` through
the command table; a present identifier forwards exactly the associated
command string, verbatim and alone; an absent identifier forwards nothing,
and in both cases the message still falls through to the original window
procedure, so no error is surfaced. -/
theorem dispatch_verbatim_or_noop (table : List (Nat × List Char))
    (orig : Nat → Nat → Nat → Int × Int → Int) (hWnd wParam : Nat)
    (lParam : Int × Int) :
    (WndProc table orig hWnd WM_COMMAND wParam lParam).1.sent
      = (lookupCmd table (LOWORD wParam)).toList ∧
    (∀ cmd, lookupCmd table (LOWORD wParam) = some cmd →
      (WndProc table orig hWnd WM_COMMAND wParam lParam).1.sent = [cmd]) ∧
    (lookupCmd table (LOWORD wParam) = none →
      (WndProc table orig hWnd WM_COMMAND wParam lParam).1.sent = []) ∧
    (WndProc table orig hWnd WM_COMMAND wParam lParam).2
      = orig hWnd WM_COMMAND wParam lParam := by
  have hsent : (WndProc table orig hWnd WM_COMMAND wParam lParam).1.sent
      = (lookupCmd table (LOWORD wParam)).toList := by
    unfold WndProc handle_menu
    rw [if_neg (by decide), if_pos rfl]
    cases lookupCmd table (LOWORD wParam) <;> rfl
  refine ⟨hsent, ?_, ?_, rfl⟩
  · intro cmd hc
    rw [hsent, hc]
    rfl
  · intro hc
    rw [hsent, hc]
    rfl

/-- C4 witness: a two-entry table, one present id and one absent id. -/
theorem dispatch_verbatim_or_noop_witness :
    (WndProc [(10000, ['q'])] (fun _ _ _ _ => 7) 4 WM_COMMAND 10000 (0, 0)).1.sent
      = [['q']] :=
  (dispatch_verbatim_or_noop [(10000, ['q'])] (fun _ _ _ _ => 7) 4 10000 (0, 0)).2.1
    ['q'] (by decide)

/-- C9: every message `WndProc` receives — the two it handles included — is
forwarded unchanged to the saved original window procedure, and `WndProc`
returns exactly what that procedure returns. -/
theorem wndproc_returns_original (table : List (Nat × List Char))
    (orig : Nat → Nat → Nat → Int × Int → Int) (hWnd uMsg wParam : Nat)
    (lParam : Int × Int) :
    (WndProc table orig hWnd uMsg wParam lParam).2 = orig hWnd uMsg wParam lParam :=
  rfl

/-- C10: `read_file` returns NULL exactly when the file cannot be opened; on
success the buffer is the file's bytes plus one, with the NUL terminator
placed at index file-size. -/
theorem read_file_nul_terminated (fs : FS) (p : List (List Char)) :
    (read_file fs p = none ↔ fs p = none) ∧
    ∀ d : List Char, fs p = some d →
      read_file fs p = some (d ++ [NULC]) ∧
      (d ++ [NULC]).length = d.length + 1 ∧
      (d ++ [NULC]).getD d.length 'A' = NULC := by
  constructor
  · cases h : fs p <;> simp [read_file, h]
  · intro d hd
    refine ⟨by simp [read_file, hd], by simp, ?_⟩
    rw [List.getD_append_right _ _ _ _ (le_refl _)]
    simp [List.getD]

/-- C10 witness: evaluated on a concrete one-byte file. -/
theorem read_file_nul_terminated_witness :
    read_file fsOne [] = some (['a'] ++ [NULC]) ∧
    (['a'] ++ [NULC]).length = ['a'].length + 1 ∧
    (['a'] ++ [NULC]).getD (['a'] : List Char).length 'A' = NULC :=
  (read_file_nul_terminated fsOne []).2 ['a'] rfl

theorem cplugin_loop_shutdown (fs : FS) (lm : List Char → Option Nat) (handle : Nat) :
    ∀ (events : List MpvEvent) (st : LoopSt), MpvEvent.shutdown ∈ events →
      (cplugin_loop fs lm handle events st).2 = some 0 := by
  intro events
  induction events with
  | nil => intro st h; cases h
  | cons e rest ih =>
      intro st h
      cases e with
      | shutdown => rfl
      | other =>
          simp only [cplugin_loop]
          exact ih st (by simpa using h)
      | propChange name isInt64 v =>
          have hr : MpvEvent.shutdown ∈ rest := by
            rcases List.mem_cons.mp h with h1 | h1
            · cases h1
            · exact h1
          simp only [cplugin_loop]
          split
          · exact ih _ hr
          · exact ih _ hr

theorem cplugin_loop_ctx_of_fail (fs : FS) (lm : List Char → Option Nat) (handle : Nat) :
    ∀ (events : List MpvEvent) (st : LoopSt), fs st.ctx.conf_path = none →
      (cplugin_loop fs lm handle events st).1.ctx = st.ctx ∧
      (cplugin_loop fs lm handle events st).1.win = st.win := by
  intro events
  induction events with
  | nil => intro st _; exact ⟨rfl, rfl⟩
  | cons e rest ih =>
      intro st h
      cases e with
      | shutdown => exact ⟨rfl, rfl⟩
      | other => exact ih st h
      | propChange name isInt64 v =>
          simp only [cplugin_loop]
          split
          · have hpi : plugin_init fs lm st.ctx st.win handle v
                = ⟨st.ctx, st.win, [.readConf st.ctx.conf_path, .msgBox]⟩ := by
              unfold plugin_init
              rw [show read_file fs st.ctx.conf_path = none by
                simp [read_file, h]]
            rw [hpi]
            exact ih _ h
          · exact ih st h

/-- C1: when the configuration file cannot be read, `plugin_init` shows the
blocking message box and returns with the context and window untouched — in
particular `hmenu` and `wnd_proc` stay unset across the whole event loop —
and `mpv_open_cplugin` keeps running unaffected, still returning 0 when
shutdown arrives. -/
theorem plugin_init_read_fail (fs : FS) (lm : List Char → Option Nat)
    (handle : Nat) (c : PluginCtx) (w : Window) (wid : Int)
    (events : List MpvEvent) (h : fs c.conf_path = none) :
    plugin_init fs lm c w handle wid
      = ⟨c, w, [.readConf c.conf_path, .msgBox]⟩ ∧
    (mpv_open_cplugin fs lm handle events ⟨c, w, []⟩).1.ctx.hmenu = c.hmenu ∧
    (mpv_open_cplugin fs lm handle events ⟨c, w, []⟩).1.ctx.wnd_proc = c.wnd_proc ∧
    (mpv_open_cplugin fs lm handle events ⟨c, w, []⟩).1.win = w ∧
    (MpvEvent.shutdown ∈ events →
      (mpv_open_cplugin fs lm handle events ⟨c, w, []⟩).2 = some 0) := by
  have hpi : plugin_init fs lm c w handle wid
      = ⟨c, w, [.readConf c.conf_path, .msgBox]⟩ := by
    unfold plugin_init
    rw [show read_file fs c.conf_path = none by simp [read_file, h]]
  have hloop := cplugin_loop_ctx_of_fail fs lm handle events ⟨c, w, []⟩ h
  exact ⟨hpi, by rw [show (mpv_open_cplugin fs lm handle events ⟨c, w, []⟩).1.ctx = c
              from hloop.1],
         by rw [show (mpv_open_cplugin fs lm handle events ⟨c, w, []⟩).1.ctx = c
              from hloop.1],
         hloop.2,
         fun hs => cplugin_loop_shutdown fs lm handle events ⟨c, w, []⟩ hs⟩

/-- C1 witness: a session whose configuration read fails, with one
qualifying window event followed by shutdown. -/
theorem plugin_init_read_fail_witness :
    plugin_init fsNone lmFix cW wW 0 1
      = ⟨cW, wW, [.readConf cW.conf_path, .msgBox]⟩ ∧
    (mpv_open_cplugin fsNone lmFix 0 [evQ, .shutdown] ⟨cW, wW, []⟩).1.ctx.hmenu
      = cW.hmenu ∧
    (mpv_open_cplugin fsNone lmFix 0 [evQ, .shutdown] ⟨cW, wW, []⟩).1.ctx.wnd_proc
      = cW.wnd_proc ∧
    (mpv_open_cplugin fsNone lmFix 0 [evQ, .shutdown] ⟨cW, wW, []⟩).1.win = wW ∧
    (MpvEvent.shutdown ∈ [evQ, MpvEvent.shutdown] →
      (mpv_open_cplugin fsNone lmFix 0 [evQ, .shutdown] ⟨cW, wW, []⟩).2 = some 0) :=
  plugin_init_read_fail fsNone lmFix 0 cW wW 1 [evQ, .shutdown] rfl

/-- C5 counterexample: with two positive `window-id` property-change events
in one session and an unchanged configuration, the loop runs `load_menu`
twice, not once, and after the second construction the saved "original"
window procedure is the plugin's own `WndProc`, so the first pair did not
live unchanged until detach. -/
theorem menu_built_twice :
    countLoad (mpv_open_cplugin fsSome lmFix 0 [evQ, evQ, .shutdown]
        ⟨cW, wW, []⟩).1.trace = 2 ∧
    (mpv_open_cplugin fsSome lmFix 0 [evQ, evQ, .shutdown]
        ⟨cW, wW, []⟩).1.ctx.wnd_proc = some WNDPROC_PLUGIN ∧
    wW.proc ≠ WNDPROC_PLUGIN := by
  refine ⟨?_, ?_, by decide⟩ <;> with_unfolding_all rfl

theorem countP_flatten_replicate {α : Type} (p : α → Bool) (n : Nat)
    (l : List α) :
    ((List.replicate n l).flatten).countP p = n * l.countP p := by
  induction n with
  | zero => simp
  | succ k ih =>
      simp [List.replicate_succ, List.flatten_cons, List.countP_append, ih]
      ring

theorem plugin_init_some (fs : FS) (lm : List Char → Option Nat) (c : PluginCtx)
    (w : Window) (handle : Nat) (wid : Int) (d : List Char)
    (h : fs c.conf_path = some d) :
    plugin_init fs lm c w handle wid
      = InitRes.mk
          { c with mpv := some handle, hwnd := wid, hmenu := lm (d ++ [NULC]),
                   wnd_proc := some w.proc }
          ⟨WNDPROC_PLUGIN⟩
          [.readConf c.conf_path, .loadMenu (d ++ [NULC]), .subclass, .freeConf] := by
  unfold plugin_init
  rw [show read_file fs c.conf_path = some (d ++ [NULC]) by simp [read_file, h]]

theorem cplugin_loop_no_qual (fs : FS) (lm : List Char → Option Nat) (handle : Nat) :
    ∀ (events : List MpvEvent) (st : LoopSt), countQual events = 0 →
      (cplugin_loop fs lm handle events st).1 = st := by
  intro events
  induction events with
  | nil => intro st _; rfl
  | cons e rest ih =>
      intro st h
      cases e with
      | shutdown => rfl
      | other => exact ih st h
      | propChange name isInt64 v =>
          simp only [countQual] at h
          by_cases hc : isInt64 = true ∧ name = "window-id" ∧ 0 < v
          · rw [if_pos hc] at h
            omega
          · rw [if_neg hc] at h
            simp only [cplugin_loop, if_neg hc]
            exact ih st (by omega)

theorem cplugin_loop_trace (fs : FS) (lm : List Char → Option Nat)
    (handle : Nat) (d : List Char) :
    ∀ (events : List MpvEvent) (st : LoopSt), fs st.ctx.conf_path = some d →
      (cplugin_loop fs lm handle events st).1.trace
        = st.trace ++ (List.replicate (countQual events)
            ([.readConf st.ctx.conf_path, .loadMenu (d ++ [NULC]),
              .subclass, .freeConf] : List InitEff)).flatten := by
  intro events
  induction events with
  | nil => intro st _; simp [cplugin_loop, countQual]
  | cons e rest ih =>
      intro st h
      cases e with
      | shutdown => simp [cplugin_loop, countQual]
      | other =>
          simp only [cplugin_loop, countQual]
          exact ih st h
      | propChange name isInt64 v =>
          by_cases hc : isInt64 = true ∧ name = "window-id" ∧ 0 < v
          · simp only [cplugin_loop, countQual, if_pos hc]
            rw [plugin_init_some fs lm st.ctx st.win handle v d h]
            rw [ih _ (by simpa using h)]
            rw [show (1 : Nat) + countQual rest = countQual rest + 1 from
              Nat.add_comm 1 _]
            simp [List.replicate_succ, List.flatten_cons, List.append_assoc]
          · simp only [cplugin_loop, countQual, if_neg hc]
            rw [ih st h]
            simp

/-- C5 amended: the tree/table pair is constructed at every `window-id`
property-change event with a positive `int64` value — not only at the first
— each construction preceded by its own fresh configuration read (the trace
is one read/build/subclass/free block per qualifying event, so read and
build counts both equal the qualifying-event count); and when the session
has exactly one such event, with no further qualifying event before the loop
ends, construction happens exactly once and the built pair (`hmenu` and the
saved procedure) lives unchanged in the context until the loop returns for
teardown. -/
theorem menu_build_per_event (fs : FS) (lm : List Char → Option Nat)
    (handle : Nat) (events : List MpvEvent) (st : LoopSt) (d : List Char)
    (h : fs st.ctx.conf_path = some d) :
    countLoad (cplugin_loop fs lm handle events st).1.trace
      = countLoad st.trace + countQual events ∧
    countRead (cplugin_loop fs lm handle events st).1.trace
      = countRead st.trace + countQual events ∧
    (cplugin_loop fs lm handle events st).1.trace
      = st.trace ++ (List.replicate (countQual events)
          ([.readConf st.ctx.conf_path, .loadMenu (d ++ [NULC]),
            .subclass, .freeConf] : List InitEff)).flatten ∧
    (∀ v rest, events = MpvEvent.propChange "window-id" true v :: rest →
      0 < v → countQual rest = 0 →
      (cplugin_loop fs lm handle events st).1.ctx
        = (plugin_init fs lm st.ctx st.win handle v).ctx ∧
      (cplugin_loop fs lm handle events st).1.ctx.hmenu = lm (d ++ [NULC]) ∧
      (cplugin_loop fs lm handle events st).1.ctx.wnd_proc = some st.win.proc) := by
  have htr := cplugin_loop_trace fs lm handle d events st h
  refine ⟨?_, ?_, htr, ?_⟩
  · rw [htr]
    simp only [countLoad, List.countP_append, countP_flatten_replicate]
    simp [List.countP_cons]
  · rw [htr]
    simp only [countRead, List.countP_append, countP_flatten_replicate]
    simp [List.countP_cons]
  · intro v rest hev hv hq
    subst hev
    simp only [cplugin_loop]
    rw [if_pos ⟨trivial, trivial, hv⟩,
      plugin_init_some fs lm st.ctx st.win handle v d h,
      cplugin_loop_no_qual fs lm handle rest _ hq]
    exact ⟨rfl, rfl, rfl⟩

/-- C5 amended witness: the two-event session evaluated concretely for the
counts, and a one-event session whose built pair persists to loop exit. -/
theorem menu_build_per_event_witness :
    countLoad (cplugin_loop fsSome lmFix 0 [evQ, evQ, .shutdown]
        ⟨cW, wW, []⟩).1.trace
      = countLoad (⟨cW, wW, []⟩ : LoopSt).trace
          + countQual [evQ, evQ, .shutdown] ∧
    (cplugin_loop fsSome lmFix 0 [evQ, .shutdown] ⟨cW, wW, []⟩).1.ctx.hmenu
      = lmFix (['q'] ++ [NULC]) ∧
    (cplugin_loop fsSome lmFix 0 [evQ, .shutdown] ⟨cW, wW, []⟩).1.ctx.wnd_proc
      = some wW.proc :=
  ⟨(menu_build_per_event fsSome lmFix 0 [evQ, evQ, .shutdown]
      ⟨cW, wW, []⟩ ['q'] rfl).1,
   ((menu_build_per_event fsSome lmFix 0 [evQ, .shutdown]
      ⟨cW, wW, []⟩ ['q'] rfl).2.2.2 1 [MpvEvent.shutdown] rfl
      (by decide) rfl).2.1,
   ((menu_build_per_event fsSome lmFix 0 [evQ, .shutdown]
      ⟨cW, wW, []⟩ ['q'] rfl).2.2.2 1 [MpvEvent.shutdown] rfl
      (by decide) rfl).2.2⟩

/-- C6: on a successful read, `plugin_init` frees the configuration text
only as its last step, strictly after the `load_menu` call that builds the
tree and table (the trace is exactly read, build, subclass, free). -/
theorem conf_freed_after_build (fs : FS) (lm : List Char → Option Nat)
    (c : PluginCtx) (w : Window) (handle : Nat) (wid : Int) (d : List Char)
    (h : fs c.conf_path = some d) :
    (plugin_init fs lm c w handle wid).trace
      = [.readConf c.conf_path, .loadMenu (d ++ [NULC]), .subclass, .freeConf] ∧
    (plugin_init fs lm c w handle wid).trace.findIdx isLoadStep
      < (plugin_init fs lm c w handle wid).trace.findIdx isFreeStep := by
  have ht : (plugin_init fs lm c w handle wid).trace
      = [.readConf c.conf_path, .loadMenu (d ++ [NULC]), .subclass, .freeConf] := by
    unfold plugin_init
    rw [show read_file fs c.conf_path = some (d ++ [NULC]) by simp [read_file, h]]
  refine ⟨ht, ?_⟩
  rw [ht]
  simp [List.findIdx_cons, isLoadStep, isFreeStep]

/-- C6 witness: evaluated with a concrete filesystem and context. -/
theorem conf_freed_after_build_witness :
    (plugin_init fsSome lmFix cW wW 0 1).trace
      = [.readConf cW.conf_path, .loadMenu (['q'] ++ [NULC]), .subclass, .freeConf] ∧
    (plugin_init fsSome lmFix cW wW 0 1).trace.findIdx isLoadStep
      < (plugin_init fsSome lmFix cW wW 0 1).trace.findIdx isFreeStep :=
  conf_freed_after_build fsSome lmFix cW wW 0 1 ['q'] rfl

/-- C7: at process attach `create_plugin_ctx` stores, as `conf_path`, the
module's own file path combined with `..\\..\\input.conf`, and that stored
path — never recomputed by `plugin_init` — is exactly the one `read_file`
is invoked on. -/
theorem conf_path_from_module (modPath : List (List Char)) (s : ProcSt)
    (fs : FS) (lm : List Char → Option Nat) (c : PluginCtx) (w : Window)
    (handle : Nat) (wid : Int) :
    (create_plugin_ctx modPath).conf_path = pathCombine modPath REL_CONF ∧
    (DllMain modPath .processAttach s).1.ctx = some (create_plugin_ctx modPath) ∧
    (DllMain modPath .processAttach s).2 = true ∧
    (plugin_init fs lm c w handle wid).trace.head? = some (.readConf c.conf_path) ∧
    (plugin_init fs lm c w handle wid).ctx.conf_path = c.conf_path := by
  refine ⟨rfl, rfl, rfl, ?_, ?_⟩
  · unfold plugin_init
    cases read_file fs c.conf_path <;> rfl
  · unfold plugin_init
    cases read_file fs c.conf_path <;> rfl

/-- C8: `plugin_destroy` (run by `DllMain` at process detach) destroys the
menu exactly when one was installed, restores the saved original window
procedure exactly when the window was subclassed — leaving the window with
the procedure it had before attach — frees the context, and does nothing
else. -/
theorem plugin_destroy_restores (mp : List (List Char)) (c : PluginCtx)
    (w : Window) (p : Nat) (s : ProcSt) (fs : FS) (lm : List Char → Option Nat)
    (handle : Nat) (wid : Int) (d : List Char)
    (h1 : fs c.conf_path = some d) (h2 : wid ≠ 0) (hs : s.ctx = some c) :
    (plugin_destroy c w).destroyedMenu = c.hmenu ∧
    (plugin_destroy c w).freedCtx = true ∧
    (c.wnd_proc = none → (plugin_destroy c w).win = w) ∧
    (c.wnd_proc = some p → c.hwnd ≠ 0 → (plugin_destroy c w).win.proc = p) ∧
    (plugin_destroy (plugin_init fs lm c w handle wid).ctx
        (plugin_init fs lm c w handle wid).win).win.proc = w.proc ∧
    (DllMain mp .processDetach s).1.win = (plugin_destroy c s.win).win ∧
    (DllMain mp .processDetach s).1.freedCtx = true ∧
    (DllMain mp .processDetach s).1.destroyedMenus
      = s.destroyedMenus ++ c.hmenu.toList := by
  have hpi : plugin_init fs lm c w handle wid
      = InitRes.mk
          { c with mpv := some handle, hwnd := wid, hmenu := lm (d ++ [NULC]),
                   wnd_proc := some w.proc }
          ⟨WNDPROC_PLUGIN⟩
          [.readConf c.conf_path, .loadMenu (d ++ [NULC]), .subclass, .freeConf] := by
    unfold plugin_init
    rw [show read_file fs c.conf_path = some (d ++ [NULC]) by simp [read_file, h1]]
  refine ⟨rfl, rfl, ?_, ?_, ?_, ?_, ?_, ?_⟩
  · intro hn
    simp [plugin_destroy, hn]
  · intro hp hw
    simp [plugin_destroy, hp, hw]
  · rw [hpi]
    simp [plugin_destroy, h2]
  · simp [DllMain, hs]
  · simp [DllMain, hs]
  · simp [DllMain, hs, plugin_destroy]

/-- C8 witness: a freshly created context, initialized on a window with id 1
and then destroyed; the window gets its original procedure back. -/
theorem plugin_destroy_restores_witness :
    (plugin_destroy (plugin_init fsSome lmFix cW wW 0 1).ctx
        (plugin_init fsSome lmFix cW wW 0 1).win).win.proc = wW.proc :=
  (plugin_destroy_restores [] cW wW 9 ⟨some cW, wW, [], false⟩ fsSome lmFix 0 1
      ['q'] rfl (by decide) rfl).2.2.2.2.1

end MpvMenu
